import Mathlib

/-!
# AdGuard Home: `internal/dhcpsvc` and `internal/home` (client)

A shallow embedding of `internal/dhcpsvc/dhcpsvc.go` (the `Lease` record, the
`Interface` contract and its `Empty` implementation) and of
`internal/home/client.go` (`Client.ShallowClone`, `Client.setSafeSearch`).
The implementation of `Interface` that stores leases is not part of these
sources; the lease directory of the spec stands for it.

Go values that live behind pointers or slices are kept in an explicit store:
a pointer is `Option Nat` (`none` is `nil`), a slice is `Option Slice` (`none`
is the `nil` slice) whose header names a backing array of the store.  A
function that dereferences memory returns `Option`; `none` stands for a Go
run-time panic (nil dereference, index out of range).
-/

namespace Go

/-- A non-nil Go `error` value.  The Go type `error` is `Option GoError`. -/
structure GoError where
  msg : String
deriving DecidableEq, Repr

/-- A Go pointer: `none` is `nil`, `some a` is the address `a` of an object. -/
abbrev Ptr := Option Nat

/-- The header of a non-nil Go slice: backing array, offset of the first
element in it, and length.  The capacity is left out: it is not observable by
indexing, and no function embedded here appends or re-slices. -/
structure Slice where
  arr : Nat
  off : Nat
  len : Nat
deriving DecidableEq, Repr

/-- Go `len(s)` of a slice value. -/
def len : Option Slice → Nat
  | none => 0
  | some s => s.len

/-- The elements seen through a slice header, `none` if the header does not
lie inside an allocated backing array. -/
def readSlice {α : Type} (arrs : List (List α)) (s : Slice) : Option (List α) :=
  match arrs[s.arr]? with
  | none => none
  | some a => if s.off + s.len ≤ a.length then some ((a.drop s.off).take s.len) else none

/-- The elements of a slice value; the `nil` slice has no elements. -/
def elems {α : Type} (arrs : List (List α)) : Option Slice → Option (List α)
  | none => some []
  | some s => readSlice arrs s

/-- Go `s[i] = v`: `none` (panic) when `i` is out of range. -/
def writeSlice {α : Type} (arrs : List (List α)) (s : Option Slice) (i : Nat) (v : α) :
    Option (List (List α)) :=
  match s with
  | none => none
  | some s =>
    match arrs[s.arr]? with
    | none => none
    | some a =>
      if i < s.len ∧ s.off + s.len ≤ a.length then
        some (arrs.set s.arr (a.set (s.off + i) v))
      else none

/-- Library function `slices.Clone` (golang.org/x/exp/slices), also the
behaviour of `stringutil.CloneSlice` (golibs): `nil` for a `nil` slice,
otherwise `append([]E\x7b\x7d, s...)`, a slice over a freshly allocated backing
array holding the elements of `s`. -/
def cloneSlice {α : Type} (arrs : List (List α)) (s : Option Slice) :
    Option (List (List α) × Option Slice) :=
  match s with
  | none => some (arrs, none)
  | some s =>
    match readSlice arrs s with
    | none => none
    | some xs => some (arrs ++ [xs], some { arr := arrs.length, off := 0, len := s.len })

/-- The slice `x` shares no element with the slice `y`: the assignment
`x[i] = v` succeeds for every index `i` below `len(x)` and every `v`, and
leaves the elements of `y` as they were. -/
def writesKeep {α : Type} (arrs : List (List α)) (x y : Option Slice) : Prop :=
  ∀ (i : Nat) (v : α), i < len x →
    ∃ arrs2, writeSlice arrs x i v = some arrs2 ∧ elems arrs2 y = elems arrs y

end Go

namespace netip

/-- The `z` field of `netip.Addr`: `z0` marks the zero `Addr`, `z4` an IPv4
address, `z6noz` an IPv6 address without zone, `zone` an IPv6 zone. -/
inductive Zone where
  | z0
  | z4
  | z6noz
  | zone (name : String)
deriving DecidableEq, Repr

/-- The type `netip.Addr`: a 128-bit number (two 64-bit halves) and `z`. -/
structure Addr where
  hi : Nat
  lo : Nat
  z : Zone
deriving DecidableEq, Repr

/-- The zero value `netip.Addr\x7b\x7d`. -/
def Addr.zero : Addr := { hi := 0, lo := 0, z := Zone.z0 }

end netip

namespace time

/-- The type `time.Time`: the `wall` and `ext` encodings and the location
pointer. -/
structure Time where
  wall : Nat
  ext : Int
  loc : Go.Ptr
deriving DecidableEq, Repr

end time

namespace dhcpsvc

open Go

/-- The type `net.HardwareAddr`, a byte slice. -/
abbrev HardwareAddr := Option Slice

/-- Lease is a DHCP lease (the struct value). -/
structure Lease where
  IP : netip.Addr
  Expiry : time.Time
  Hostname : String
  HWAddr : HardwareAddr
  IsStatic : Bool
deriving DecidableEq, Repr

/-- The store: backing arrays of byte slices, `Lease` objects (a `*Lease` is
an index into `leases`), and backing arrays of `[]*Lease` slices. -/
structure Heap where
  bytes : List (List Nat)
  leases : List Lease
  ptrs : List (List Ptr)
deriving DecidableEq, Repr

/-- Go `&Lease\x7b...\x7d`: allocate a new `Lease` object. -/
def Heap.newLease (h : Heap) (v : Lease) : Heap × Ptr :=
  ({ h with leases := h.leases ++ [v] }, some h.leases.length)

/-- Go `*p = v` for a valid, allocated `p : *Lease`. -/
def Heap.storeLease (h : Heap) (p : Ptr) (v : Lease) : Option Heap :=
  match p with
  | none => none
  | some a => if a < h.leases.length then some { h with leases := h.leases.set a v } else none

/-- Go `*p` for `p : *Lease`. -/
def Heap.loadLease (h : Heap) (p : Ptr) : Option Lease :=
  match p with
  | none => none
  | some a => h.leases[a]?

/-- Go `hw[i] = b` for a hardware address `hw`. -/
def Heap.setByte (h : Heap) (hw : HardwareAddr) (i b : Nat) : Option Heap :=
  match writeSlice h.bytes hw i b with
  | none => none
  | some bs => some { h with bytes := bs }

/-- Clone returns a deep copy of l. -/
def Lease.Clone (h : Heap) (l : Ptr) : Option (Heap × Ptr) :=
  match l with
  | none => some (h, none)
  | some a =>
    match h.leases[a]? with
    | none => none
    | some v =>
      match cloneSlice h.bytes v.HWAddr with
      | none => none
      | some (bs, hw) =>
        some (Heap.newLease { h with bytes := bs }
          { Expiry := v.Expiry,
            Hostname := v.Hostname,
            HWAddr := hw,
            IP := v.IP,
            IsStatic := v.IsStatic })

/-- The contract `Interface` of the DHCP service, with the methods of the
embedded `agh.ServiceWithConfig[*Config]`.  A method takes its receiver and
the store and returns the store with its result.  `*Config` and
`context.Context` are handles. -/
structure Interface (σ : Type) where
  Start : σ → Heap → Heap × Option GoError
  Shutdown : σ → Heap → Ptr → Heap × Option GoError
  Config : σ → Heap → Heap × Ptr
  Enabled : σ → Heap → Heap × Bool
  HostByIP : σ → Heap → netip.Addr → Heap × String
  MACByIP : σ → Heap → netip.Addr → Heap × HardwareAddr
  IPByHost : σ → Heap → String → Heap × netip.Addr
  Leases : σ → Heap → Heap × Option Slice
  AddLease : σ → Heap → Ptr → Heap × Option GoError
  UpdateStaticLease : σ → Heap → Ptr → Heap × Option GoError
  RemoveLease : σ → Heap → Ptr → Heap × Option GoError
  Reset : σ → Heap → Heap × Option GoError

/-- Empty is an `Interface` implementation that does nothing. -/
structure Empty where
deriving DecidableEq, Repr

/-- Start implements the `Service` interface for Empty. -/
def Empty.Start (_ : Empty) (h : Heap) : Heap × Option GoError := (h, none)

/-- Shutdown implements the `Service` interface for Empty. -/
def Empty.Shutdown (_ : Empty) (h : Heap) (_ : Ptr) : Heap × Option GoError := (h, none)

/-- Config implements the `ServiceWithConfig` interface for Empty. -/
def Empty.Config (_ : Empty) (h : Heap) : Heap × Ptr := (h, none)

/-- Enabled implements the `Interface` interface for Empty. -/
def Empty.Enabled (_ : Empty) (h : Heap) : Heap × Bool := (h, false)

/-- HostByIP implements the `Interface` interface for Empty. -/
def Empty.HostByIP (_ : Empty) (h : Heap) (_ : netip.Addr) : Heap × String := (h, "")

/-- MACByIP implements the `Interface` interface for Empty. -/
def Empty.MACByIP (_ : Empty) (h : Heap) (_ : netip.Addr) : Heap × HardwareAddr := (h, none)

/-- IPByHost implements the `Interface` interface for Empty. -/
def Empty.IPByHost (_ : Empty) (h : Heap) (_ : String) : Heap × netip.Addr :=
  (h, netip.Addr.zero)

/-- Leases implements the `Interface` interface for Empty. -/
def Empty.Leases (_ : Empty) (h : Heap) : Heap × Option Slice := (h, none)

/-- AddLease implements the `Interface` interface for Empty. -/
def Empty.AddLease (_ : Empty) (h : Heap) (_ : Ptr) : Heap × Option GoError := (h, none)

/-- UpdateStaticLease implements the `Interface` interface for Empty. -/
def Empty.UpdateStaticLease (_ : Empty) (h : Heap) (_ : Ptr) : Heap × Option GoError :=
  (h, none)

/-- RemoveLease implements the `Interface` interface for Empty. -/
def Empty.RemoveLease (_ : Empty) (h : Heap) (_ : Ptr) : Heap × Option GoError := (h, none)

/-- Reset implements the `Interface` interface for Empty. -/
def Empty.Reset (_ : Empty) (h : Heap) : Heap × Option GoError := (h, none)

/-- The type check `var _ Interface = Empty\x7b\x7d`. -/
def Empty.asInterface : Interface Empty where
  Start := Empty.Start
  Shutdown := Empty.Shutdown
  Config := Empty.Config
  Enabled := Empty.Enabled
  HostByIP := Empty.HostByIP
  MACByIP := Empty.MACByIP
  IPByHost := Empty.IPByHost
  Leases := Empty.Leases
  AddLease := Empty.AddLease
  UpdateStaticLease := Empty.UpdateStaticLease
  RemoveLease := Empty.RemoveLease
  Reset := Empty.Reset

/-! ### Vocabulary of the contract: call sequences and observations -/

/-- One call of a writing method of `Interface`. -/
inductive Call where
  | AddLease (l : Ptr)
  | UpdateStaticLease (l : Ptr)
  | RemoveLease (l : Ptr)
  | Reset
deriving DecidableEq, Repr

/-- Perform one writing call on the service `s`. -/
def Interface.call {σ : Type} (I : Interface σ) (s : σ) (h : Heap) : Call → Heap × Option GoError
  | Call.AddLease l => I.AddLease s h l
  | Call.UpdateStaticLease l => I.UpdateStaticLease s h l
  | Call.RemoveLease l => I.RemoveLease s h l
  | Call.Reset => I.Reset s h

/-- Perform a sequence of writing calls in order; the store afterwards and
the error each call returned. -/
def Interface.run {σ : Type} (I : Interface σ) (s : σ) (h : Heap) :
    List Call → Heap × List (Option GoError)
  | [] => (h, [])
  | c :: cs =>
    let r := I.call s h c
    let rs := Interface.run I s r.1 cs
    (rs.1, r.2 :: rs.2)

/-- The four reads of `Interface` at one state, for the arguments `ip` and
`host`. -/
def Interface.reads {σ : Type} (I : Interface σ) (s : σ) (h : Heap) (ip : netip.Addr)
    (host : String) : String × HardwareAddr × netip.Addr × Option Slice :=
  ((I.HostByIP s h ip).2, (I.MACByIP s h ip).2, (I.IPByHost s h host).2, (I.Leases s h).2)

/-- A lease compared by value: the fields, with the hardware address as its
bytes. -/
structure LeaseVal where
  IP : netip.Addr
  Expiry : time.Time
  Hostname : String
  HWAddr : List Nat
  IsStatic : Bool
deriving DecidableEq, Repr

/-- The value of the lease behind `p`, if `p` and its hardware address are
valid. -/
def Heap.leaseVal (h : Heap) (p : Ptr) : Option LeaseVal :=
  match h.loadLease p with
  | none => none
  | some v =>
    match elems h.bytes v.HWAddr with
    | none => none
    | some bs =>
      some { IP := v.IP, Expiry := v.Expiry, Hostname := v.Hostname, HWAddr := bs,
             IsStatic := v.IsStatic }

/-- The records of a `[]*Lease` value such as the result of `Leases()`. -/
def Heap.records (h : Heap) (ls : Option Slice) : List Ptr :=
  match elems h.ptrs ls with
  | none => []
  | some ps => ps

/-- The lease `l` is equal by value to one of the records `ps`. -/
def Heap.among (h : Heap) (l : Ptr) (ps : List Ptr) : Prop :=
  ∃ q ∈ ps, h.leaseVal q ≠ none ∧ h.leaseVal q = h.leaseVal l

/-- Two records clash when they share an IP, a hardware address, or a
hostname compared without regard to case. -/
def Heap.clash (h : Heap) (p q : Ptr) : Prop :=
  match h.leaseVal p, h.leaseVal q with
  | some a, some b =>
    a.IP = b.IP ∨ a.HWAddr = b.HWAddr ∨ a.Hostname.toLower = b.Hostname.toLower
  | _, _ => False

/-- Uniqueness: no two records at different positions of the list clash. -/
def Heap.unique (h : Heap) (ps : List Ptr) : Prop :=
  ps.Pairwise (fun p q => ¬ h.clash p q)

/-! ### The active implementation, from the spec

The source holds the contract `Interface` and its no-op implementation
`Empty`; the implementation that stores leases is not under `src/`.  It is
modelled here from the spec (§3, §4.1 to §4.3, §7).  The contract reads the
clock inside each call; here every call carries the logical time `now` at
which it is made. -/

/-- Modelled from the spec: the Lease Record of §3, which the active
implementation of `Interface`, missing from `src/`, stores: `address`,
`expiry` (an absolute timestamp), `hostname`, `hardwareAddress` (a byte
sequence) and `isStatic`. -/
structure Record where
  address : netip.Addr
  expiry : Int
  hostname : String
  hardwareAddress : List Nat
  isStatic : Bool
deriving DecidableEq, Repr

/-- Modelled from the spec: the error kinds of §7 that the operations of the
missing active implementation return; a conflict identifies the constraint
that failed. -/
inductive Failure where
  | InvalidRecord
  | ConflictAddress
  | ConflictHardwareAddress
  | ConflictHostname
  | NotFound
deriving DecidableEq, Repr

/-- Modelled from the spec: §4.3 of the missing active implementation.  A
dynamic record is expired when `now >= expiry`; static records are immune. -/
def Record.live (now : Int) (r : Record) : Bool :=
  r.isStatic || decide (now < r.expiry)

/-- Modelled from the spec: `address` is specified (§3: never
zero/unspecified), for the validation of the missing active implementation:
not the zero `netip.Addr`, not `::` and not `0.0.0.0`. -/
def specified (a : netip.Addr) : Bool :=
  a != netip.Addr.zero && a != { hi := 0, lo := 0, z := netip.Zone.z6noz }
    && a != { hi := 0, lo := 0xffff00000000, z := netip.Zone.z4 }

/-- Modelled from the spec: the validation of AddLease (§4.2) of the missing
active implementation: `address` is specified, `hardwareAddress` and
`hostname` are non-empty, and the `expiry` of a dynamic record is in the
future. -/
def Record.valid (now : Int) (r : Record) : Bool :=
  specified r.address && !r.hardwareAddress.isEmpty && r.hostname != "" && r.live now

/-- Modelled from the spec: the case-insensitive comparison of hostnames
(§3, invariant 3) of the missing active implementation. -/
def sameHost (a b : String) : Bool :=
  a.data.map Char.toLower == b.data.map Char.toLower

/-- Modelled from the spec: the conflict check of §4.2 of the missing active
implementation: the address, hardware address or hostname of `r` is already
bound to one of the records `rs`; the error names the constraint. -/
def conflict (r : Record) (rs : List Record) : Option Failure :=
  if rs.any (fun x => x.address == r.address) then some Failure.ConflictAddress
  else if rs.any (fun x => x.hardwareAddress == r.hardwareAddress) then
    some Failure.ConflictHardwareAddress
  else if rs.any (fun x => sameHost x.hostname r.hostname) then some Failure.ConflictHostname
  else none

/-- Modelled from the spec: the Lease Directory (§4.1), the state of the
missing active implementation of `Interface`: the set of records. -/
structure Directory where
  records : List Record
deriving DecidableEq, Repr

/-- Modelled from the spec: the live records of the missing active
implementation at the time `now` (§4.3: an expired dynamic record is treated
as absent by every operation). -/
def Directory.liveRecords (d : Directory) (now : Int) : List Record :=
  d.records.filter (fun r => r.live now)

/-- Modelled from the spec: the order of `allLeases` (§4.1, sorted by
address) of the missing active implementation. -/
def addrLe (a b : Record) : Bool :=
  decide (a.address.hi < b.address.hi) ||
    (a.address.hi == b.address.hi && decide (a.address.lo ≤ b.address.lo))

/-- Modelled from the spec: `allLeases` (§4.1), the method `Leases` of the
missing active implementation: the live records, sorted by address. -/
def Directory.allLeases (d : Directory) (now : Int) : List Record :=
  (d.liveRecords now).insertionSort (fun a b => addrLe a b = true)

/-- Modelled from the spec: `hostByAddress` (§4.1), the method `HostByIP` of
the missing active implementation: empty if no live record matches. -/
def Directory.hostByAddress (d : Directory) (now : Int) (ip : netip.Addr) : String :=
  match (d.liveRecords now).find? (fun x => x.address == ip) with
  | some x => x.hostname
  | none => ""

/-- Modelled from the spec: `hardwareByAddress` (§4.1), the method `MACByIP`
of the missing active implementation: empty if no live record matches. -/
def Directory.hardwareByAddress (d : Directory) (now : Int) (ip : netip.Addr) : List Nat :=
  match (d.liveRecords now).find? (fun x => x.address == ip) with
  | some x => x.hardwareAddress
  | none => []

/-- Modelled from the spec: `addressByHost` (§4.1), the method `IPByHost` of
the missing active implementation: the zero address if no live record
matches. -/
def Directory.addressByHost (d : Directory) (now : Int) (host : String) : netip.Addr :=
  match (d.liveRecords now).find? (fun x => sameHost x.hostname host) with
  | some x => x.address
  | none => netip.Addr.zero

/-- Modelled from the spec: AddLease (§4.2) of the missing active
implementation: validate, check the three constraints against the live
records, and insert; a failure leaves the directory as it was.  The incoming
record is a record of its own, so every live record counts as a different
one. -/
def Directory.addLease (d : Directory) (now : Int) (r : Record) :
    Directory × Option Failure :=
  if r.valid now then
    match conflict r (d.liveRecords now) with
    | some e => (d, some e)
    | none => ({ records := d.liveRecords now ++ [r] }, none)
  else (d, some Failure.InvalidRecord)

/-- Modelled from the spec: UpdateStaticLease (§4.2) of the missing active
implementation: find the live record with the hardware address of `r`; not
found if there is none or it is dynamic; validate as in Add; if the address
or the hostname changed, check conflicts against the other live records;
then remove the old record and insert the new one. -/
def Directory.updateStaticLease (d : Directory) (now : Int) (r : Record) :
    Directory × Option Failure :=
  match (d.liveRecords now).find? (fun x => x.hardwareAddress == r.hardwareAddress) with
  | none => (d, some Failure.NotFound)
  | some old =>
    if !old.isStatic then (d, some Failure.NotFound)
    else if !r.valid now then (d, some Failure.InvalidRecord)
    else
      let others := (d.liveRecords now).filter (fun x => x != old)
      let check :=
        if r.address != old.address || r.hostname != old.hostname then conflict r others
        else none
      match check with
      | some e => (d, some e)
      | none => ({ records := r :: others }, none)

/-- Modelled from the spec: RemoveLease (§4.2) of the missing active
implementation: requires a live record whose address and hardware address
both match, not found otherwise; removes it. -/
def Directory.removeLease (d : Directory) (now : Int) (r : Record) :
    Directory × Option Failure :=
  if (d.liveRecords now).any
      (fun x => x.address == r.address && x.hardwareAddress == r.hardwareAddress) then
    ({ records := (d.liveRecords now).filter
        (fun x => !(x.address == r.address && x.hardwareAddress == r.hardwareAddress)) },
      none)
  else (d, some Failure.NotFound)

/-- Modelled from the spec: Reset (§4.2) of the missing active
implementation: clears all records, static and dynamic. -/
def Directory.reset (_ : Directory) : Directory × Option Failure :=
  ({ records := [] }, none)

/-- Modelled from the spec: one call of a writing operation (§4.2) of the
missing active implementation, with the time at which it is made. -/
inductive Op where
  | addLease (now : Int) (r : Record)
  | updateStaticLease (now : Int) (r : Record)
  | removeLease (now : Int) (r : Record)
  | reset
deriving DecidableEq, Repr

/-- Modelled from the spec: perform one writing call on the missing active
implementation. -/
def Directory.step (d : Directory) : Op → Directory × Option Failure
  | Op.addLease now r => d.addLease now r
  | Op.updateStaticLease now r => d.updateStaticLease now r
  | Op.removeLease now r => d.removeLease now r
  | Op.reset => d.reset

/-- Modelled from the spec: perform a sequence of writing calls on the
missing active implementation, whatever each call returns. -/
def Directory.run (d : Directory) : List Op → Directory
  | [] => d
  | o :: os => Directory.run (d.step o).1 os

/-- Modelled from the spec: two Lease Records clash when they share an
address, a hardware address, or a hostname compared without regard to case
(§3, invariants 1 to 3, on the records of the missing active
implementation). -/
def Record.clash (a b : Record) : Prop :=
  a.address = b.address ∨ a.hardwareAddress = b.hardwareAddress ∨
    sameHost a.hostname b.hostname = true

/-- Modelled from the spec: uniqueness (§8) of a list of records of the
missing active implementation: no two records at different positions
clash. -/
def uniqueRecords (rs : List Record) : Prop :=
  rs.Pairwise (fun a b => ¬ a.clash b)

end dhcpsvc

namespace home

open Go

/-- Client contains information about persistent clients (the struct value).
`Conf` is the type `filtering.SafeSearchConfig`; `upstreamConfig` and
`BlockedServices` are pointers and `SafeSearch` an interface value, all three
handles into the store of the packages that declare them. -/
structure Client (Conf : Type) where
  upstreamConfig : Ptr
  safeSearchConf : Conf
  SafeSearch : Ptr
  BlockedServices : Ptr
  Name : String
  IDs : Option Slice
  Tags : Option Slice
  Upstreams : Option Slice
  UpstreamsCacheSize : Nat
  UpstreamsCacheEnabled : Bool
  UseOwnSettings : Bool
  FilteringEnabled : Bool
  SafeBrowsingEnabled : Bool
  ParentalEnabled : Bool
  UseOwnBlockedServices : Bool
  IgnoreQueryLog : Bool
  IgnoreStatistics : Bool
deriving DecidableEq, Repr

/-- The store: backing arrays of `[]string` slices, `Client` objects (a
`*Client` is an index into `clients`), and the state `F` owned by package
`filtering` (blocked-services objects, safe-search filters), which the code
of this file reaches only through calls into that package. -/
structure Mem (Conf F : Type) where
  strs : List (List String)
  clients : List (Client Conf)
  filtering : F

/-- Go `*c` for `c : *Client`. -/
def Mem.loadClient {Conf F : Type} (m : Mem Conf F) (c : Ptr) : Option (Client Conf) :=
  match c with
  | none => none
  | some a => m.clients[a]?

/-- ShallowClone returns a deep copy of the client, except upstreamConfig,
safeSearchConf, SafeSearch fields, because it is difficult to copy them.
`bsClone` is the method `(*filtering.BlockedServices).Clone`, which acts on the
state of its own package; `stringutil.CloneSlice` is `cloneSlice`.  The fields
of `c` are read from the value loaded first, since nothing in between writes
to a `Client` object. -/
def Client.ShallowClone {Conf F : Type} (bsClone : F → Ptr → F × Ptr)
    (m : Mem Conf F) (c : Ptr) : Option (Mem Conf F × Ptr) :=
  match m.loadClient c with
  | none => none
  | some v =>
    let clone := v
    let r := bsClone m.filtering v.BlockedServices
    let clone := { clone with BlockedServices := r.2 }
    match cloneSlice m.strs v.IDs with
    | none => none
    | some (s1, ids) =>
      let clone := { clone with IDs := ids }
      match cloneSlice s1 v.Tags with
      | none => none
      | some (s2, tags) =>
        let clone := { clone with Tags := tags }
        match cloneSlice s2 v.Upstreams with
        | none => none
        | some (s3, ups) =>
          let clone := { clone with Upstreams := ups }
          some ({ strs := s3, clients := m.clients ++ [clone], filtering := r.1 },
                some m.clients.length)

/-- The function setSafeSearch initializes and sets the safe search filter
for this client.  `NewDefault` is `safesearch.NewDefault`, returning the
filter and the error, and `quote` is the formatting of the verb `%q`. -/
def Client.setSafeSearch {Conf F : Type}
    (NewDefault : F → Conf → String → Nat → Int → F × Ptr × Option GoError)
    (quote : String → String)
    (m : Mem Conf F) (c : Ptr) (conf : Conf) (cacheSize : Nat) (cacheTTL : Int) :
    Option (Mem Conf F × Option GoError) :=
  match c with
  | none => none
  | some a =>
    match m.clients[a]? with
    | none => none
    | some v =>
      let r := NewDefault m.filtering conf ("client " ++ quote v.Name) cacheSize cacheTTL
      match r.2.2 with
      | some err => some ({ m with filtering := r.1 }, some err)
      | none =>
        some ({ m with clients := m.clients.set a { v with SafeSearch := r.2.1 },
                       filtering := r.1 }, none)

end home

/-! ## Sample stores -/

namespace dhcpsvc

/-- A static lease of 10.0.0.5 to the host `printer`, its hardware address
being the six bytes of array 0. -/
def sampleLease : Lease :=
  { IP := { hi := 0, lo := 0xffff0a000005, z := netip.Zone.z4 },
    Expiry := { wall := 0, ext := 0, loc := none },
    Hostname := "printer",
    HWAddr := some { arr := 0, off := 0, len := 6 },
    IsStatic := true }

/-- A store holding `sampleLease` at address 0. -/
def sampleHeap : Heap :=
  { bytes := [[0xAA, 0xBB, 0xCC, 0xDD, 0xEE, 0x01]], leases := [sampleLease], ptrs := [] }

/-- The static record of the example of §8: 10.0.0.5, AA:BB:CC:DD:EE:01,
`printer`. -/
def printer : Record :=
  { address := { hi := 0, lo := 0xffff0a000005, z := netip.Zone.z4 },
    expiry := 0,
    hostname := "printer",
    hardwareAddress := [0xAA, 0xBB, 0xCC, 0xDD, 0xEE, 0x01],
    isStatic := true }

/-- The dynamic record of the example of §8, expiring at 3600: 10.0.0.5,
AA:BB:CC:DD:EE:02, `laptop`. -/
def laptop : Record :=
  { address := { hi := 0, lo := 0xffff0a000005, z := netip.Zone.z4 },
    expiry := 3600,
    hostname := "laptop",
    hardwareAddress := [0xAA, 0xBB, 0xCC, 0xDD, 0xEE, 0x02],
    isStatic := false }

/-- A dynamic record at another address, 10.0.0.4, expiring at 3600, with
the hostname `Phone`. -/
def phone : Record :=
  { address := { hi := 0, lo := 0xffff0a000004, z := netip.Zone.z4 },
    expiry := 3600,
    hostname := "Phone",
    hardwareAddress := [0xAA, 0xBB, 0xCC, 0xDD, 0xEE, 0x03],
    isStatic := false }

end dhcpsvc

namespace home

/-- A client named `laptop` with two IDs in array 0, no tags and one upstream
in the second cell of array 1; `Conf` is `Bool` here. -/
def sampleClient : Client Bool :=
  { upstreamConfig := some 7,
    safeSearchConf := true,
    SafeSearch := none,
    BlockedServices := some 3,
    Name := "laptop",
    IDs := some { arr := 0, off := 0, len := 2 },
    Tags := none,
    Upstreams := some { arr := 1, off := 1, len := 1 },
    UpstreamsCacheSize := 16,
    UpstreamsCacheEnabled := true,
    UseOwnSettings := true,
    FilteringEnabled := false,
    SafeBrowsingEnabled := true,
    ParentalEnabled := false,
    UseOwnBlockedServices := true,
    IgnoreQueryLog := false,
    IgnoreStatistics := true }

/-- A store holding `sampleClient` at address 0; the state of package
`filtering` is a counter of allocated objects. -/
def sampleMem : Mem Bool Nat :=
  { strs := [["10.0.0.7", "aa:bb:cc:dd:ee:02"], ["", "tls://dns.example"]],
    clients := [sampleClient],
    filtering := 4 }

/-- A sample `BlockedServices.Clone`: nil for nil, otherwise a newly
allocated object. -/
def sampleBsClone (f : Nat) (p : Go.Ptr) : Nat × Go.Ptr :=
  match p with
  | none => (f, none)
  | some _ => (f + 1, some f)

/-- A sample `safesearch.NewDefault`: an error for a zero cache size,
otherwise a newly allocated filter. -/
def sampleNewDefault (f : Nat) (_ : Bool) (name : String) (cacheSize : Nat) (_ : Int) :
    Nat × Go.Ptr × Option Go.GoError :=
  if cacheSize = 0 then (f, none, some { msg := "no cache for " ++ name })
  else (f + 1, some f, none)

/-- A sample formatting of `%q`: the string between double quotes. -/
def sampleQuote (s : String) : String := "\"" ++ s ++ "\""

end home

/-! ## Lemmas on the store -/

namespace Go

theorem readSlice_arr_lt {α : Type} {arrs : List (List α)} {s : Slice} {xs : List α}
    (h : readSlice arrs s = some xs) : s.arr < arrs.length := by
  unfold readSlice at h
  by_contra hlt
  rw [List.getElem?_eq_none (Nat.le_of_not_lt hlt)] at h
  simp at h

theorem readSlice_length {α : Type} {arrs : List (List α)} {s : Slice} {xs : List α}
    (h : readSlice arrs s = some xs) : xs.length = s.len := by
  unfold readSlice at h
  split at h
  · simp at h
  · split at h
    · simp only [Option.some.injEq] at h
      subst h
      simp only [List.length_take, List.length_drop]
      omega
    · simp at h

theorem readSlice_append {α : Type} {arrs : List (List α)} {s : Slice} {xs : List α}
    (ext : List (List α)) (h : readSlice arrs s = some xs) :
    readSlice (arrs ++ ext) s = some xs := by
  have hlt := readSlice_arr_lt h
  unfold readSlice at h ⊢
  rw [List.getElem?_append_left hlt]
  exact h

theorem readSlice_fresh {α : Type} (arrs : List (List α)) (xs : List α) :
    readSlice (arrs ++ [xs]) { arr := arrs.length, off := 0, len := xs.length } = some xs := by
  simp [readSlice]

theorem readSlice_set_ne {α : Type} (arrs : List (List α)) (s : Slice) (k : Nat)
    (a : List α) (hne : k ≠ s.arr) : readSlice (arrs.set k a) s = readSlice arrs s := by
  unfold readSlice
  rw [List.getElem?_set_ne hne]

theorem elems_append {α : Type} {arrs : List (List α)} {s : Option Slice} {xs : List α}
    (ext : List (List α)) (h : elems arrs s = some xs) : elems (arrs ++ ext) s = some xs := by
  cases s with
  | none => exact h
  | some t => exact readSlice_append ext h

theorem drop_take_set {α : Type} (a : List α) (off n i : Nat) (v : α) (hi : i < n) :
    ((a.set (off + i) v).drop off).take n = ((a.drop off).take n).set i v := by
  apply List.ext_getElem?
  intro k
  simp only [List.getElem?_take, List.getElem?_drop, List.getElem?_set, List.length_take,
    List.length_drop]
  by_cases hk : k < n
  · simp only [hk, if_true]
    by_cases hik : i = k
    · subst hik
      have e : (i < n ∧ i < a.length - off) ↔ off + i < a.length := by
        constructor
        · intro h; omega
        · intro h; exact ⟨hi, by omega⟩
      simp [e]
    · have : ¬ (off + i = off + k) := by omega
      simp [hik, this]
  · simp only [hk, if_false]
    have : i ≠ k := by omega
    simp [this]

/-- Writing through a valid slice at an index below its length succeeds,
changes that element of the slice, and leaves every slice over another array
as it was. -/
theorem writeSlice_spec {α : Type} {arrs : List (List α)} {s : Slice} {xs : List α}
    (h : readSlice arrs s = some xs) (i : Nat) (v : α) (hi : i < s.len) :
    ∃ arrs2, writeSlice arrs (some s) i v = some arrs2 ∧
      readSlice arrs2 s = some (xs.set i v) ∧
      ∀ t : Slice, t.arr ≠ s.arr → readSlice arrs2 t = readSlice arrs t := by
  have hlt := readSlice_arr_lt h
  unfold readSlice at h
  cases ha : arrs[s.arr]? with
  | none => rw [ha] at h; simp at h
  | some a =>
    rw [ha] at h
    by_cases hle : s.off + s.len ≤ a.length
    · simp only [hle, if_true, Option.some.injEq] at h
      refine ⟨arrs.set s.arr (a.set (s.off + i) v), ?_, ?_, ?_⟩
      · simp [writeSlice, ha, hi, hle]
      · subst h
        simp [readSlice, hlt, hle, drop_take_set a s.off s.len i v hi]
      · intro t ht
        exact readSlice_set_ne arrs t s.arr _ (Ne.symm ht)
    · simp [hle] at h

/-- Two valid slices over different arrays share no element. -/
theorem writesKeep_of_ne {α : Type} {arrs : List (List α)} {x y : Option Slice}
    {xs : List α} (hx : elems arrs x = some xs)
    (hne : ∀ s t, x = some s → y = some t → t.arr ≠ s.arr) : writesKeep arrs x y := by
  intro i v hi
  cases x with
  | none => simp [len] at hi
  | some s =>
    obtain ⟨arrs2, hw, -, hframe⟩ := writeSlice_spec (show readSlice arrs s = some xs from hx)
      i v hi
    refine ⟨arrs2, hw, ?_⟩
    cases y with
    | none => rfl
    | some t => exact hframe t (hne s t rfl rfl)

/-- A valid slice value names an allocated array. -/
theorem elems_arr_lt {α : Type} {arrs : List (List α)} {x : Option Slice} {xs : List α}
    (hx : elems arrs x = some xs) : ∀ s, x = some s → s.arr < arrs.length := by
  intro s hs
  subst hs
  exact readSlice_arr_lt hx

/-- What `cloneSlice` returns on a valid slice value: the store grows at the
end, the result has the elements, length and nil-ness of the argument, and a
non-nil result lies in an array that was not allocated before. -/
theorem cloneSlice_spec {α : Type} {arrs : List (List α)} {s : Option Slice} {xs : List α}
    (h : elems arrs s = some xs) :
    ∃ ext s', cloneSlice arrs s = some (arrs ++ ext, s') ∧
      elems (arrs ++ ext) s' = some xs ∧ len s' = len s ∧ (s' = none ↔ s = none) ∧
      ∀ t, s' = some t → t.arr = arrs.length ∧ t.off = 0 ∧ t.len = xs.length ∧
        ext = [xs] := by
  cases s with
  | none =>
    refine ⟨[], none, by simp [cloneSlice], ?_, rfl, by simp, by simp⟩
    simpa [elems] using h
  | some t =>
    have hr : readSlice arrs t = some xs := h
    have hl := readSlice_length hr
    refine ⟨[xs], some { arr := arrs.length, off := 0, len := t.len }, ?_, ?_, rfl, by simp, ?_⟩
    · simp [cloneSlice, hr]
    · rw [← hl]; exact readSlice_fresh arrs xs
    · intro u hu
      simp only [Option.some.injEq] at hu
      subst hu
      simp [hl]

end Go

/-! ## `Lease.Clone` -/

namespace dhcpsvc

open Go

/-- What `Lease.Clone` computes on a valid non-nil receiver. -/
theorem Lease.Clone_eq {h : Heap} {a : Nat} {v : Lease} {bs : List Nat}
    (hv : h.leases[a]? = some v) (hb : elems h.bytes v.HWAddr = some bs) :
    ∃ ext hw, cloneSlice h.bytes v.HWAddr = some (h.bytes ++ ext, hw) ∧
      Lease.Clone h (some a) =
        some ({ bytes := h.bytes ++ ext,
                leases := h.leases ++ [{ IP := v.IP, Expiry := v.Expiry, Hostname := v.Hostname,
                                         HWAddr := hw, IsStatic := v.IsStatic }],
                ptrs := h.ptrs }, some h.leases.length) := by
  obtain ⟨ext, hw, hc, -⟩ := cloneSlice_spec hb
  refine ⟨ext, hw, hc, ?_⟩
  simp [Lease.Clone, hv, hc, Heap.newLease]

/-- C3: `Lease.Clone` returns a copy equal by value to its receiver.  For a
nil receiver, in every store, the result is nil and the store is untouched.
For a receiver at address `a` holding the lease `v`, whose hardware address
reads as the bytes `bs`, the call returns a non-nil pointer `q` to another
object, one that was not allocated before the call, holding a lease `c` with
the IP, Expiry, Hostname and IsStatic of `v` and a hardware address of the
same length, the same bytes and the same nil-ness, in an array that was not
allocated before the call; the two leases have the same value, and the
receiver and its bytes are as before. -/
theorem Lease_Clone_equal_by_value :
    (∀ h : Heap, Lease.Clone h none = some (h, none)) ∧
    ∀ (h : Heap) (a : Nat) (v : Lease) (bs : List Nat),
      h.leases[a]? = some v → elems h.bytes v.HWAddr = some bs →
      ∃ h1 q c, Lease.Clone h (some a) = some (h1, some q) ∧
        q ≠ a ∧ h.loadLease (some q) = none ∧
        h1.loadLease (some q) = some c ∧
        c.IP = v.IP ∧ c.Expiry = v.Expiry ∧ c.Hostname = v.Hostname ∧
        c.IsStatic = v.IsStatic ∧
        len c.HWAddr = len v.HWAddr ∧ elems h1.bytes c.HWAddr = some bs ∧
        (c.HWAddr = none ↔ v.HWAddr = none) ∧
        (∀ t, c.HWAddr = some t → h.bytes[t.arr]? = none) ∧
        h1.leaseVal (some q) = h.leaseVal (some a) ∧ h.leaseVal (some a) ≠ none ∧
        h1.loadLease (some a) = some v ∧ elems h1.bytes v.HWAddr = some bs := by
  refine ⟨fun _ => rfl, ?_⟩
  intro h a v bs hv hb
  obtain ⟨ext, hw, hc, hclone⟩ := Lease.Clone_eq hv hb
  obtain ⟨ext2, hw2, hc2, hel, hlen, hnil, hfresh⟩ := cloneSlice_spec hb
  rw [hc] at hc2
  simp only [Option.some.injEq, Prod.mk.injEq, List.append_cancel_left_eq] at hc2
  obtain ⟨hext, hhw⟩ := hc2
  subst hext hhw
  have halt : a < h.leases.length := by
    by_contra hn
    rw [List.getElem?_eq_none (Nat.le_of_not_lt hn)] at hv
    simp at hv
  refine ⟨_, h.leases.length,
    { IP := v.IP, Expiry := v.Expiry, Hostname := v.Hostname, HWAddr := hw,
      IsStatic := v.IsStatic },
    hclone, by omega, ?_, ?_, rfl, rfl, rfl, rfl, hlen, hel, hnil, ?_, ?_, ?_, ?_,
    elems_append ext hb⟩
  · simp [Heap.loadLease]
  · simp [Heap.loadLease]
  · intro t ht
    rw [(hfresh t ht).1]
    exact List.getElem?_eq_none (Nat.le_refl _)
  · simp [Heap.leaseVal, Heap.loadLease, hv, hb, hel]
  · simp [Heap.leaseVal, Heap.loadLease, hv, hb]
  · simp only [Heap.loadLease]
    rw [List.getElem?_append_left halt]
    exact hv

/-- Witness of C3: the nil receiver in a store without objects, and the
clone of the lease at address 0 of the sample store. -/
theorem Lease_Clone_equal_by_value_witness :
    Lease.Clone { bytes := [], leases := [], ptrs := [] } none
      = some ({ bytes := [], leases := [], ptrs := [] }, none) ∧
    ∃ h1 q c, Lease.Clone sampleHeap (some 0) = some (h1, some q) ∧
      q ≠ 0 ∧ sampleHeap.loadLease (some q) = none ∧
      h1.loadLease (some q) = some c ∧
      c.IP = sampleLease.IP ∧ c.Expiry = sampleLease.Expiry ∧
      c.Hostname = sampleLease.Hostname ∧ c.IsStatic = sampleLease.IsStatic ∧
      len c.HWAddr = len sampleLease.HWAddr ∧
      elems h1.bytes c.HWAddr = some [0xAA, 0xBB, 0xCC, 0xDD, 0xEE, 0x01] ∧
      (c.HWAddr = none ↔ sampleLease.HWAddr = none) ∧
      (∀ t, c.HWAddr = some t → sampleHeap.bytes[t.arr]? = none) ∧
      h1.leaseVal (some q) = sampleHeap.leaseVal (some 0) ∧
      sampleHeap.leaseVal (some 0) ≠ none ∧
      h1.loadLease (some 0) = some sampleLease ∧
      elems h1.bytes sampleLease.HWAddr = some [0xAA, 0xBB, 0xCC, 0xDD, 0xEE, 0x01] :=
  ⟨Lease_Clone_equal_by_value.1 { bytes := [], leases := [], ptrs := [] },
   Lease_Clone_equal_by_value.2 sampleHeap 0 sampleLease
     [0xAA, 0xBB, 0xCC, 0xDD, 0xEE, 0x01] rfl rfl⟩

/-- C4: the copy returned by `Lease.Clone` shares no mutable storage with its
receiver.  For a receiver at address `a` holding the lease `v` with a
non-empty hardware address that reads as the bytes `bs`, the clone `c` lives
at another address `q`, and in the store after the call: overwriting any byte
of the hardware address of the clone, or the whole struct of the clone,
succeeds, is seen through the clone, and leaves the struct `v` at `a` and
every byte of its hardware address as they were; and the same with the roles
of the receiver and the clone exchanged. -/
theorem Lease_Clone_no_shared_storage (h : Heap) (a : Nat) (v : Lease) (bs : List Nat)
    (hv : h.leases[a]? = some v) (hb : elems h.bytes v.HWAddr = some bs)
    (hne : 0 < len v.HWAddr) :
    ∃ h1 q c, Lease.Clone h (some a) = some (h1, some q) ∧
      h1.loadLease (some q) = some c ∧ q ≠ a ∧
      h1.loadLease (some a) = some v ∧
      elems h1.bytes v.HWAddr = some bs ∧ elems h1.bytes c.HWAddr = some bs ∧
      (∀ i b, i < len c.HWAddr →
        ∃ h2, h1.setByte c.HWAddr i b = some h2 ∧
          h2.loadLease (some q) = some c ∧ elems h2.bytes c.HWAddr = some (bs.set i b) ∧
          h2.loadLease (some a) = some v ∧ elems h2.bytes v.HWAddr = some bs) ∧
      (∀ w, ∃ h2, h1.storeLease (some q) w = some h2 ∧
          h2.loadLease (some q) = some w ∧
          h2.loadLease (some a) = some v ∧ elems h2.bytes v.HWAddr = some bs) ∧
      (∀ i b, i < len v.HWAddr →
        ∃ h2, h1.setByte v.HWAddr i b = some h2 ∧
          h2.loadLease (some a) = some v ∧ elems h2.bytes v.HWAddr = some (bs.set i b) ∧
          h2.loadLease (some q) = some c ∧ elems h2.bytes c.HWAddr = some bs) ∧
      (∀ w, ∃ h2, h1.storeLease (some a) w = some h2 ∧
          h2.loadLease (some a) = some w ∧
          h2.loadLease (some q) = some c ∧ elems h2.bytes c.HWAddr = some bs) := by
  obtain ⟨ext, hw, hc, hclone⟩ := Lease.Clone_eq hv hb
  obtain ⟨ext2, hw2, hc2, hel, hlen, hnil, hfresh⟩ := cloneSlice_spec hb
  rw [hc] at hc2
  simp only [Option.some.injEq, Prod.mk.injEq, List.append_cancel_left_eq] at hc2
  obtain ⟨hext, hhw⟩ := hc2
  subst hext hhw
  -- the receiver has a non-nil slice, hence so has the clone
  cases hs : v.HWAddr with
  | none => rw [hs] at hne; simp [len] at hne
  | some s =>
  cases ht : hw with
  | none => rw [hnil.mp ht] at hs; simp at hs
  | some t =>
  obtain ⟨harr, -, -, hex⟩ := hfresh t ht
  subst hex
  rw [hs] at hb hlen
  rw [ht] at hel hlen
  have hrs : readSlice h.bytes s = some bs := hb
  have hrt : readSlice (h.bytes ++ [bs]) t = some bs := hel
  have hrs1 : readSlice (h.bytes ++ [bs]) s = some bs := readSlice_append [bs] hrs
  have hslt : s.arr < h.bytes.length := readSlice_arr_lt hrs
  have hst : s.arr ≠ t.arr := by omega
  have halt : a < h.leases.length := by
    by_contra hn
    rw [List.getElem?_eq_none (Nat.le_of_not_lt hn)] at hv
    simp at hv
  have hla : ∀ c : Lease, (h.leases ++ [c])[a]? = some v := by
    intro c
    rw [List.getElem?_append_left halt]; exact hv
  rw [ht] at hclone
  obtain ⟨c, hcdef⟩ : ∃ c : Lease,
      c = Lease.mk v.IP v.Expiry v.Hostname (some t) v.IsStatic := ⟨_, rfl⟩
  rw [← hcdef] at hclone
  have hcw : c.HWAddr = some t := by rw [hcdef]
  have hlq : (h.leases ++ [c])[h.leases.length]? = some c := by simp
  refine ⟨{ bytes := h.bytes ++ [bs], leases := h.leases ++ [c], ptrs := h.ptrs },
    h.leases.length, c, hclone, hlq, by omega, hla c, hrs1, by rw [hcw]; exact hrt,
    ?_, ?_, ?_, ?_⟩
  · intro i b hi
    rw [hcw] at hi ⊢
    obtain ⟨arrs2, hwr, hsame, hframe⟩ := writeSlice_spec hrt i b hi
    refine ⟨{ bytes := arrs2, leases := h.leases ++ [c], ptrs := h.ptrs }, ?_, hlq, hsame,
      hla c, ?_⟩
    · simp only [Heap.setByte, hwr]
    · show readSlice arrs2 s = some bs
      rw [hframe s hst]; exact hrs1
  · intro w
    refine ⟨{ bytes := h.bytes ++ [bs], leases := (h.leases ++ [c]).set h.leases.length w,
              ptrs := h.ptrs }, ?_, ?_, ?_, hrs1⟩
    · simp [Heap.storeLease]
    · simp [Heap.loadLease]
    · simp only [Heap.loadLease]
      rw [List.getElem?_set_ne (by omega)]
      exact hla c
  · intro i b hi
    obtain ⟨arrs2, hwr, hsame, hframe⟩ := writeSlice_spec hrs1 i b hi
    refine ⟨{ bytes := arrs2, leases := h.leases ++ [c], ptrs := h.ptrs }, ?_, hla c, hsame,
      hlq, ?_⟩
    · simp only [Heap.setByte, hwr]
    · rw [hcw]
      show readSlice arrs2 t = some bs
      rw [hframe t (Ne.symm hst)]; exact hrt
  · intro w
    have hal : a < (h.leases ++ [c]).length := by
      rw [List.length_append]; omega
    refine ⟨{ bytes := h.bytes ++ [bs], leases := (h.leases ++ [c]).set a w,
              ptrs := h.ptrs }, ?_, ?_, ?_, by rw [hcw]; exact hrt⟩
    · simp only [Heap.storeLease]
      rw [if_pos hal]
    · simp only [Heap.loadLease]
      rw [List.getElem?_set_self hal]
    · simp only [Heap.loadLease]
      rw [List.getElem?_set_ne (by omega)]
      exact hlq

/-- Witness of C4 on the sample store: the lease at address 0, with its six
hardware-address bytes, and its clone do not share storage. -/
theorem Lease_Clone_no_shared_storage_witness :
    ∃ h1 q c, Lease.Clone sampleHeap (some 0) = some (h1, some q) ∧
      h1.loadLease (some q) = some c ∧ q ≠ 0 ∧
      h1.loadLease (some 0) = some sampleLease ∧
      elems h1.bytes sampleLease.HWAddr = some [0xAA, 0xBB, 0xCC, 0xDD, 0xEE, 0x01] ∧
      elems h1.bytes c.HWAddr = some [0xAA, 0xBB, 0xCC, 0xDD, 0xEE, 0x01] ∧
      (∀ i b, i < len c.HWAddr →
        ∃ h2, h1.setByte c.HWAddr i b = some h2 ∧
          h2.loadLease (some q) = some c ∧
          elems h2.bytes c.HWAddr = some ([0xAA, 0xBB, 0xCC, 0xDD, 0xEE, 0x01].set i b) ∧
          h2.loadLease (some 0) = some sampleLease ∧
          elems h2.bytes sampleLease.HWAddr = some [0xAA, 0xBB, 0xCC, 0xDD, 0xEE, 0x01]) ∧
      (∀ w, ∃ h2, h1.storeLease (some q) w = some h2 ∧
          h2.loadLease (some q) = some w ∧
          h2.loadLease (some 0) = some sampleLease ∧
          elems h2.bytes sampleLease.HWAddr = some [0xAA, 0xBB, 0xCC, 0xDD, 0xEE, 0x01]) ∧
      (∀ i b, i < len sampleLease.HWAddr →
        ∃ h2, h1.setByte sampleLease.HWAddr i b = some h2 ∧
          h2.loadLease (some 0) = some sampleLease ∧
          elems h2.bytes sampleLease.HWAddr =
            some ([0xAA, 0xBB, 0xCC, 0xDD, 0xEE, 0x01].set i b) ∧
          h2.loadLease (some q) = some c ∧
          elems h2.bytes c.HWAddr = some [0xAA, 0xBB, 0xCC, 0xDD, 0xEE, 0x01]) ∧
      (∀ w, ∃ h2, h1.storeLease (some 0) w = some h2 ∧
          h2.loadLease (some 0) = some w ∧
          h2.loadLease (some q) = some c ∧
          elems h2.bytes c.HWAddr = some [0xAA, 0xBB, 0xCC, 0xDD, 0xEE, 0x01]) :=
  Lease_Clone_no_shared_storage sampleHeap 0 sampleLease [0xAA, 0xBB, 0xCC, 0xDD, 0xEE, 0x01]
    rfl rfl (by decide)

/-! ## The `Empty` implementation -/

/-- Every writing call on `Empty` returns the store as it was and a nil
error. -/
theorem Empty.call_eq (e : Empty) (h : Heap) (c : Call) :
    Empty.asInterface.call e h c = (h, none) := by
  cases c <;> rfl

/-- A sequence of writing calls on `Empty` returns the store as it was and
only nil errors. -/
theorem Empty.run_eq (e : Empty) (h : Heap) (cs : List Call) :
    Empty.asInterface.run e h cs = (h, List.replicate cs.length none) := by
  induction cs with
  | nil => rfl
  | cons c cs ih =>
    simp only [Interface.run, Empty.call_eq, ih, List.length_cons, List.replicate_succ]

/-- C1: on `Empty` every read returns its neutral value and leaves the store
as it was: for every address `ip` and every name `host`, `HostByIP(ip)` is
the empty string, `MACByIP(ip)` is nil, `IPByHost(host)` is the zero
`netip.Addr`, and `Leases()` is nil, a list without records. -/
theorem Empty_reads_neutral (e : Empty) (h : Heap) (ip : netip.Addr) (host : String) :
    Empty.HostByIP e h ip = (h, "") ∧
    Empty.MACByIP e h ip = (h, none) ∧
    Empty.IPByHost e h host = (h, netip.Addr.zero) ∧
    Empty.Leases e h = (h, none) ∧
    h.records (Empty.Leases e h).2 = [] ∧
    Empty.asInterface.reads e h ip host = ("", none, netip.Addr.zero, none) :=
  ⟨rfl, rfl, rfl, rfl, rfl, rfl⟩

/-- C2: on `Empty` every write succeeds with no effect: `AddLease(l)`,
`UpdateStaticLease(l)`, `RemoveLease(l)` for every `l`, nil included, and
`Reset()` return a nil error and the store as it was; and after any sequence
`cs` of these writes every call returned a nil error, the store is the one
before the sequence, and the four reads return what they returned before. -/
theorem Empty_writes_no_effect (e : Empty) (h : Heap) (l : Ptr) (cs : List Call)
    (ip : netip.Addr) (host : String) :
    Empty.AddLease e h l = (h, none) ∧
    Empty.UpdateStaticLease e h l = (h, none) ∧
    Empty.RemoveLease e h l = (h, none) ∧
    Empty.Reset e h = (h, none) ∧
    (∀ r ∈ (Empty.asInterface.run e h cs).2, r = none) ∧
    (Empty.asInterface.run e h cs).2.length = cs.length ∧
    (Empty.asInterface.run e h cs).1 = h ∧
    Empty.asInterface.reads e (Empty.asInterface.run e h cs).1 ip host =
      Empty.asInterface.reads e h ip host := by
  refine ⟨rfl, rfl, rfl, rfl, ?_, ?_, ?_, ?_⟩
  · intro r hr
    rw [Empty.run_eq] at hr
    exact (List.mem_replicate.mp hr).2
  · rw [Empty.run_eq]; simp
  · rw [Empty.run_eq]
  · rw [Empty.run_eq]

/-- C5, counterexample: with N = 1 on `Empty`.  The service starts empty,
the lease at address 0 of the sample store is a valid lease, `AddLease` of it
returns no error, and `Leases()` afterwards has no record instead of one. -/
theorem Empty_round_trip_fails :
    sampleHeap.records (Empty.Leases {} sampleHeap).2 = [] ∧
    sampleHeap.leaseVal (some 0) ≠ none ∧
    (Empty.asInterface.run {} sampleHeap [Call.AddLease (some 0)]).2 = [none] ∧
    ¬ ((Empty.asInterface.run {} sampleHeap [Call.AddLease (some 0)]).1.records
        (Empty.Leases {}
          (Empty.asInterface.run {} sampleHeap [Call.AddLease (some 0)]).1).2).length
        = [Call.AddLease (some 0)].length := by
  refine ⟨rfl, ?_, rfl, ?_⟩
  · simp [Heap.leaseVal, Heap.loadLease, sampleHeap, sampleLease, elems, readSlice]
  · simp [Empty.run_eq, Empty.Leases, Heap.records, elems]

/-- C5, amended: `Empty` stores nothing.  For every N and every N leases
`ls`, each `AddLease` returns no error, `Leases()` afterwards returns nil,
which has no record, so every returned record is one of the added leases and
the number of records is N exactly when N = 0. -/
theorem Empty_add_then_list (e : Empty) (h : Heap) (ls : List Ptr) :
    (Empty.asInterface.run e h (ls.map Call.AddLease)).2 = List.replicate ls.length none ∧
    Empty.Leases e (Empty.asInterface.run e h (ls.map Call.AddLease)).1 = (h, none) ∧
    (Empty.asInterface.run e h (ls.map Call.AddLease)).1.records
      (Empty.Leases e (Empty.asInterface.run e h (ls.map Call.AddLease)).1).2 = [] ∧
    (∀ q ∈ (Empty.asInterface.run e h (ls.map Call.AddLease)).1.records
        (Empty.Leases e (Empty.asInterface.run e h (ls.map Call.AddLease)).1).2, q ∈ ls) ∧
    (((Empty.asInterface.run e h (ls.map Call.AddLease)).1.records
        (Empty.Leases e (Empty.asInterface.run e h (ls.map Call.AddLease)).1).2).length
        = ls.length ↔ ls.length = 0) := by
  rw [Empty.run_eq]
  refine ⟨by simp, rfl, rfl, ?_, ?_⟩
  · intro q hq
    simp [Empty.Leases, Heap.records, elems] at hq
  · simp only [Empty.Leases, Heap.records, elems, List.length_nil]
    exact eq_comm

/-- C6, counterexample: on `Empty` with the sample store, the lease at
address 0 is a valid lease that is not among the leases returned by
`Leases()`, and `RemoveLease` of it returns a nil error. -/
theorem Empty_RemoveLease_absent_no_error :
    sampleHeap.leaseVal (some 0) ≠ none ∧
    ¬ sampleHeap.among (some 0) (sampleHeap.records (Empty.Leases {} sampleHeap).2) ∧
    (Empty.asInterface.RemoveLease {} sampleHeap (some 0)).2 = none := by
  refine ⟨?_, ?_, rfl⟩
  · simp [Heap.leaseVal, Heap.loadLease, sampleHeap, sampleLease, elems, readSlice]
  · simp [Heap.among, Empty.Leases, Heap.records, elems]

/-- C6, amended: on `Empty`, for every lease `l` and every store,
`RemoveLease(l)` returns a nil error and the store as it was, although `l` is
not among the leases returned by `Leases()`, which returns none. -/
theorem Empty_RemoveLease_nil (e : Empty) (h : Heap) (l : Ptr) :
    Empty.asInterface.RemoveLease e h l = (h, none) ∧
    h.records (Empty.Leases e h).2 = [] ∧
    ¬ h.among l (h.records (Empty.Leases e h).2) := by
  refine ⟨rfl, rfl, ?_⟩
  simp [Heap.among, Empty.Leases, Heap.records, elems]

/-! ## The Lease Directory -/

/-- Clashing is symmetric. -/
theorem Record.clash_symm {a b : Record} (h : a.clash b) : b.clash a := by
  unfold Record.clash at h ⊢
  simp only [sameHost, beq_iff_eq] at h ⊢
  rcases h with h | h | h
  · exact Or.inl h.symm
  · exact Or.inr (Or.inl h.symm)
  · exact Or.inr (Or.inr h.symm)

/-- A record that passes the conflict check clashes with none of the records
checked. -/
theorem conflict_none {r : Record} {rs : List Record} (h : conflict r rs = none) :
    ∀ x ∈ rs, ¬ x.clash r := by
  unfold conflict at h
  split_ifs at h with h1 h2 h3
  intro x hx hcl
  simp only [List.any_eq_true, not_exists, not_and, Bool.not_eq_true] at h1 h2 h3
  rcases hcl with hc | hc | hc
  · have := h1 x hx
    simp [hc] at this
  · have := h2 x hx
    simp [hc] at this
  · have := h3 x hx
    simp [hc] at this

/-- Uniqueness is kept by removing records. -/
theorem uniqueRecords_filter {rs : List Record} (p : Record → Bool) (h : uniqueRecords rs) :
    uniqueRecords (rs.filter p) :=
  List.Pairwise.sublist (List.filter_sublist rs) h

/-- Every writing call keeps the stored records unique. -/
theorem Directory.step_unique (d : Directory) (o : Op) (h : uniqueRecords d.records) :
    uniqueRecords (d.step o).1.records := by
  have hl : ∀ now, uniqueRecords (d.liveRecords now) := fun now => uniqueRecords_filter _ h
  cases o with
  | addLease now r =>
    simp only [Directory.step, Directory.addLease]
    split_ifs with hv
    · split
      · exact h
      · next hc =>
        show List.Pairwise _ (d.liveRecords now ++ [r])
        rw [List.pairwise_append]
        refine ⟨hl now, List.pairwise_singleton _ _, ?_⟩
        intro x hx y hy
        rw [List.mem_singleton] at hy
        subst hy
        exact conflict_none hc x hx
    · exact h
  | updateStaticLease now r =>
    simp only [Directory.step, Directory.updateStaticLease]
    split
    · exact h
    · next old hfind =>
      have hold : old ∈ d.liveRecords now := List.mem_of_find?_eq_some hfind
      have hhw : old.hardwareAddress = r.hardwareAddress := by
        have := List.find?_some hfind
        simpa using this
      have huo : uniqueRecords ((d.liveRecords now).filter (fun x => x != old)) :=
        uniqueRecords_filter _ (hl now)
      split_ifs with hs hv hch
      · exact h
      · exact h
      · split
        · exact h
        · next hc =>
          show List.Pairwise _ (r :: (d.liveRecords now).filter (fun x => x != old))
          rw [List.pairwise_cons]
          exact ⟨fun x hx hcl => conflict_none hc x hx (Record.clash_symm hcl), huo⟩
      · -- address and hostname are those of the old record
        show List.Pairwise _ (r :: (d.liveRecords now).filter (fun x => x != old))
        rw [List.pairwise_cons]
        refine ⟨?_, huo⟩
        intro x hx hcl
        simp only [Bool.or_eq_true, bne_iff_ne, ne_eq, not_or, not_not] at hch
        obtain ⟨hxl, hxo⟩ := List.mem_filter.mp hx
        have hne : x ≠ old := by simpa using hxo
        have hcl2 : x.clash old := by
          have := Record.clash_symm hcl
          unfold Record.clash at this ⊢
          rw [hch.1, hch.2, ← hhw] at this
          exact this
        have hsym : Symmetric (fun a b : Record => ¬ a.clash b) :=
          fun a b hab hba => hab (Record.clash_symm hba)
        exact List.Pairwise.forall hsym (hl now) hxl hold hne hcl2
  | removeLease now r =>
    simp only [Directory.step, Directory.removeLease]
    split_ifs
    · exact uniqueRecords_filter _ (hl now)
    · exact h
  | reset => exact List.Pairwise.nil

/-- Every sequence of writing calls keeps the stored records unique. -/
theorem Directory.run_unique (ops : List Op) :
    ∀ d : Directory, uniqueRecords d.records → uniqueRecords (d.run ops).records := by
  induction ops with
  | nil => intro d h; exact h
  | cons o os ih => intro d h; exact ih _ (Directory.step_unique d o h)

/-- The list returned by `allLeases` is unique when the stored records are. -/
theorem Directory.allLeases_unique (d : Directory) (now : Int)
    (h : uniqueRecords d.records) : uniqueRecords (d.allLeases now) := by
  have hsym : Symmetric (fun a b : Record => ¬ a.clash b) :=
    fun a b hab hba => hab (Record.clash_symm hba)
  unfold Directory.allLeases uniqueRecords
  rw [(List.perm_insertionSort _ _).pairwise_iff (fun hab => hsym hab)]
  exact uniqueRecords_filter _ h

/-- The example of §8 of the spec on the directory: adding the static
`printer` succeeds, adding `laptop` at the same address fails with a conflict
on the address and leaves `printer` in place, removing `printer` succeeds, and
the host of 10.0.0.5 is then empty. -/
theorem Directory.example_of_spec :
    ((Directory.mk []).addLease 0 printer).2 = none ∧
    (((Directory.mk []).addLease 0 printer).1.addLease 0 laptop)
      = ({ records := [printer] }, some Failure.ConflictAddress) ∧
    ((Directory.mk [printer]).removeLease 0 printer) = ({ records := [] }, none) ∧
    (Directory.mk []).hostByAddress 0 printer.address = "" := by
  decide

/-- C7: uniqueness is an invariant of the service.  On the lease directory
that starts empty, after every finite sequence `ops` of AddLease,
UpdateStaticLease, RemoveLease and Reset calls, made at any times and whatever
they return, no two records at different positions of the list returned by
`Leases()` at any time `now` share an address, a hardware address, or a
hostname compared without regard to case; such lists with two records occur.
The same holds on `Empty`, where the list is always without records. -/
theorem uniqueness_invariant :
    (∀ (ops : List Op) (now : Int),
      uniqueRecords ((Directory.run { records := [] } ops).allLeases now)) ∧
    (Directory.run { records := [] } [Op.addLease 0 printer, Op.addLease 0 phone]).allLeases 0
      = [phone, printer] ∧
    (∀ (e : Empty) (h : Heap) (cs : List Call),
      (Empty.asInterface.run e h cs).1.unique
        ((Empty.asInterface.run e h cs).1.records
          (Empty.asInterface.Leases e (Empty.asInterface.run e h cs).1).2)) := by
  refine ⟨?_, by decide, ?_⟩
  · intro ops now
    exact Directory.allLeases_unique _ now (Directory.run_unique ops _ List.Pairwise.nil)
  · intro e h cs
    rw [Empty.run_eq]
    exact List.Pairwise.nil

/-- C8: `Reset` is idempotent.  On the lease directory that starts empty,
whatever writes `ops` preceded them, two calls of `Reset()` in a row both
return no error, and `Leases()` has no record after the first call and after
the second call, at any times; before the first call it may have records, as
after adding `printer`.  The same holds on `Empty`. -/
theorem Reset_idempotent :
    (∀ (ops : List Op) (now1 now2 : Int),
      (Directory.run { records := [] } ops).reset.2 = none ∧
      (Directory.run { records := [] } ops).reset.1.allLeases now1 = [] ∧
      (Directory.run { records := [] } ops).reset.1.reset.2 = none ∧
      (Directory.run { records := [] } ops).reset.1.reset.1.allLeases now2 = []) ∧
    ((Directory.run { records := [] } [Op.addLease 0 printer]).allLeases 0 = [printer] ∧
      (Directory.run { records := [] } [Op.addLease 0 printer, Op.reset]).allLeases 0 = [] ∧
      (Directory.run { records := [] } [Op.addLease 0 printer, Op.reset, Op.reset]).allLeases 0
        = []) ∧
    (∀ (e : Empty) (h : Heap) (cs : List Call),
      (Empty.asInterface.Reset e (Empty.asInterface.run e h cs).1).2 = none ∧
      (Empty.asInterface.Reset e (Empty.asInterface.run e h cs).1).1.records
        (Empty.asInterface.Leases e
          (Empty.asInterface.Reset e (Empty.asInterface.run e h cs).1).1).2 = [] ∧
      (Empty.asInterface.Reset e
        (Empty.asInterface.Reset e (Empty.asInterface.run e h cs).1).1).2 = none ∧
      (Empty.asInterface.Reset e
        (Empty.asInterface.Reset e (Empty.asInterface.run e h cs).1).1).1.records
        (Empty.asInterface.Leases e
          (Empty.asInterface.Reset e
            (Empty.asInterface.Reset e (Empty.asInterface.run e h cs).1).1).1).2 = []) := by
  refine ⟨?_, by decide, ?_⟩
  · intro ops now1 now2
    exact ⟨rfl, rfl, rfl, rfl⟩
  · intro e h cs
    exact ⟨rfl, rfl, rfl, rfl⟩

end dhcpsvc

/-! ## `Client.ShallowClone` and `Client.setSafeSearch` -/

namespace home

open Go

/-- C9: `Client.ShallowClone` returns a deep copy of the client except for
the fields upstreamConfig, safeSearchConf and SafeSearch.  For a client `c` at
address `a` whose IDs, Tags and Upstreams read as `ids`, `tags` and `ups`, the
call returns a pointer `q`, other than `a` and not allocated before, to a
client `d` with the Name, UpstreamsCacheSize and eight boolean flags of `c`,
with IDs, Tags and Upstreams of the same elements, length and nil-ness as
those of `c`, with BlockedServices the result of `c.BlockedServices.Clone()`,
and with the upstreamConfig, safeSearchConf and SafeSearch of `c` as they are.
The copy is deep: each of the three slices of `d` that is not nil lies in an
array that was not allocated before the call, and an assignment to an element
of any of the three slices of `d` leaves the elements of the three slices of
`c` as they were, and the other way round.  The client `c` itself and the
elements of its three slices are unchanged. -/
theorem Client_ShallowClone_copy {Conf F : Type} (bsClone : F → Ptr → F × Ptr)
    (m : Mem Conf F) (a : Nat) (c : Client Conf) (ids tags ups : List String)
    (hc : m.clients[a]? = some c)
    (hi : elems m.strs c.IDs = some ids) (ht : elems m.strs c.Tags = some tags)
    (hu : elems m.strs c.Upstreams = some ups) :
    ∃ m1 q d, Client.ShallowClone bsClone m (some a) = some (m1, some q) ∧
      m1.loadClient (some q) = some d ∧ q ≠ a ∧ m.loadClient (some q) = none ∧
      d.Name = c.Name ∧ d.UpstreamsCacheSize = c.UpstreamsCacheSize ∧
      d.UpstreamsCacheEnabled = c.UpstreamsCacheEnabled ∧
      d.UseOwnSettings = c.UseOwnSettings ∧
      d.FilteringEnabled = c.FilteringEnabled ∧
      d.SafeBrowsingEnabled = c.SafeBrowsingEnabled ∧
      d.ParentalEnabled = c.ParentalEnabled ∧
      d.UseOwnBlockedServices = c.UseOwnBlockedServices ∧
      d.IgnoreQueryLog = c.IgnoreQueryLog ∧
      d.IgnoreStatistics = c.IgnoreStatistics ∧
      (elems m1.strs d.IDs = some ids ∧ len d.IDs = len c.IDs ∧
        (d.IDs = none ↔ c.IDs = none)) ∧
      (elems m1.strs d.Tags = some tags ∧ len d.Tags = len c.Tags ∧
        (d.Tags = none ↔ c.Tags = none)) ∧
      (elems m1.strs d.Upstreams = some ups ∧ len d.Upstreams = len c.Upstreams ∧
        (d.Upstreams = none ↔ c.Upstreams = none)) ∧
      (m1.filtering, d.BlockedServices) = bsClone m.filtering c.BlockedServices ∧
      d.upstreamConfig = c.upstreamConfig ∧ d.safeSearchConf = c.safeSearchConf ∧
      d.SafeSearch = c.SafeSearch ∧
      m1.loadClient (some a) = some c ∧ elems m1.strs c.IDs = some ids ∧
      elems m1.strs c.Tags = some tags ∧ elems m1.strs c.Upstreams = some ups ∧
      (∀ x ∈ [d.IDs, d.Tags, d.Upstreams], ∀ t, x = some t → m.strs[t.arr]? = none) ∧
      (∀ x ∈ [d.IDs, d.Tags, d.Upstreams], ∀ y ∈ [c.IDs, c.Tags, c.Upstreams],
        writesKeep m1.strs x y ∧ writesKeep m1.strs y x) := by
  obtain ⟨e1, s1, h1, hel1, hlen1, hnil1, hf1⟩ := cloneSlice_spec hi
  have ht1 : elems (m.strs ++ e1) c.Tags = some tags := elems_append e1 ht
  obtain ⟨e2, s2, h2, hel2, hlen2, hnil2, hf2⟩ := cloneSlice_spec ht1
  have hu2 : elems (m.strs ++ e1 ++ e2) c.Upstreams = some ups :=
    elems_append e2 (elems_append e1 hu)
  obtain ⟨e3, s3, h3, hel3, hlen3, hnil3, hf3⟩ := cloneSlice_spec hu2
  have halt : a < m.clients.length := by
    by_contra hn
    rw [List.getElem?_eq_none (Nat.le_of_not_lt hn)] at hc
    simp at hc
  obtain ⟨d, hd⟩ : ∃ d : Client Conf,
      d = { c with BlockedServices := (bsClone m.filtering c.BlockedServices).2,
                   IDs := s1, Tags := s2, Upstreams := s3 } := ⟨_, rfl⟩
  have hrun : Client.ShallowClone bsClone m (some a) =
      some ({ strs := m.strs ++ e1 ++ e2 ++ e3, clients := m.clients ++ [d],
              filtering := (bsClone m.filtering c.BlockedServices).1 },
            some m.clients.length) := by
    simp only [Client.ShallowClone, Mem.loadClient, hc, h1, h2, h3, hd]
  -- the three slices of the clone and of the receiver in the final store
  have hc1 : elems (m.strs ++ e1 ++ e2 ++ e3) s1 = some ids :=
    elems_append e3 (elems_append e2 hel1)
  have hc2 : elems (m.strs ++ e1 ++ e2 ++ e3) s2 = some tags := elems_append e3 hel2
  have hr1 : elems (m.strs ++ e1 ++ e2 ++ e3) c.IDs = some ids :=
    elems_append e3 (elems_append e2 (elems_append e1 hi))
  have hr2 : elems (m.strs ++ e1 ++ e2 ++ e3) c.Tags = some tags :=
    elems_append e3 (elems_append e2 (elems_append e1 ht))
  have hr3 : elems (m.strs ++ e1 ++ e2 ++ e3) c.Upstreams = some ups := elems_append e3 hu2
  have hnew : ∀ x ∈ [s1, s2, s3], (∃ xs, elems (m.strs ++ e1 ++ e2 ++ e3) x = some xs) ∧
      ∀ t, x = some t → m.strs.length ≤ t.arr := by
    intro x hx
    simp only [List.mem_cons, List.mem_singleton, List.not_mem_nil, or_false] at hx
    rcases hx with rfl | rfl | rfl
    · exact ⟨⟨_, hc1⟩, fun t h => by rw [(hf1 t h).1]⟩
    · exact ⟨⟨_, hc2⟩, fun t h => by rw [(hf2 t h).1, List.length_append]; omega⟩
    · exact ⟨⟨_, hel3⟩, fun t h => by
        rw [(hf3 t h).1, List.length_append, List.length_append]; omega⟩
  have hold : ∀ y ∈ [c.IDs, c.Tags, c.Upstreams],
      (∃ ys, elems (m.strs ++ e1 ++ e2 ++ e3) y = some ys) ∧
      ∀ t, y = some t → t.arr < m.strs.length := by
    intro y hy
    simp only [List.mem_cons, List.mem_singleton, List.not_mem_nil, or_false] at hy
    rcases hy with rfl | rfl | rfl
    · exact ⟨⟨_, hr1⟩, elems_arr_lt hi⟩
    · exact ⟨⟨_, hr2⟩, elems_arr_lt ht⟩
    · exact ⟨⟨_, hr3⟩, elems_arr_lt hu⟩
  refine ⟨_, m.clients.length, d, hrun, ?_, by omega, ?_, ?_⟩
  · simp [Mem.loadClient]
  · simp [Mem.loadClient]
  subst hd
  refine ⟨rfl, rfl, rfl, rfl, rfl, rfl, rfl, rfl, rfl, rfl,
    ⟨hc1, hlen1, hnil1⟩, ⟨hc2, hlen2, hnil2⟩, ⟨hel3, hlen3, hnil3⟩, rfl, rfl, rfl, rfl, ?_,
    hr1, hr2, hr3, ?_, ?_⟩
  · simp only [Mem.loadClient]
    rw [List.getElem?_append_left halt]
    exact hc
  · intro x hx t hxt
    exact List.getElem?_eq_none ((hnew x hx).2 t hxt)
  · intro x hx y hy
    obtain ⟨⟨xs, hxs⟩, hxa⟩ := hnew x hx
    obtain ⟨⟨ys, hys⟩, hya⟩ := hold y hy
    constructor
    · refine writesKeep_of_ne hxs ?_
      intro s t hs htt
      have := hxa s hs
      have := hya t htt
      omega
    · refine writesKeep_of_ne hys ?_
      intro s t hs htt
      have := hya s hs
      have := hxa t htt
      omega

/-- Witness of C9 on the sample store: the client at address 0 is cloned,
with a sample `BlockedServices.Clone`. -/
theorem Client_ShallowClone_copy_witness :
    ∃ m1 q d, Client.ShallowClone sampleBsClone sampleMem (some 0) = some (m1, some q) ∧
      m1.loadClient (some q) = some d ∧ q ≠ 0 ∧ sampleMem.loadClient (some q) = none ∧
      d.Name = sampleClient.Name ∧ d.UpstreamsCacheSize = sampleClient.UpstreamsCacheSize ∧
      d.UpstreamsCacheEnabled = sampleClient.UpstreamsCacheEnabled ∧
      d.UseOwnSettings = sampleClient.UseOwnSettings ∧
      d.FilteringEnabled = sampleClient.FilteringEnabled ∧
      d.SafeBrowsingEnabled = sampleClient.SafeBrowsingEnabled ∧
      d.ParentalEnabled = sampleClient.ParentalEnabled ∧
      d.UseOwnBlockedServices = sampleClient.UseOwnBlockedServices ∧
      d.IgnoreQueryLog = sampleClient.IgnoreQueryLog ∧
      d.IgnoreStatistics = sampleClient.IgnoreStatistics ∧
      (elems m1.strs d.IDs = some ["10.0.0.7", "aa:bb:cc:dd:ee:02"] ∧
        len d.IDs = len sampleClient.IDs ∧ (d.IDs = none ↔ sampleClient.IDs = none)) ∧
      (elems m1.strs d.Tags = some [] ∧ len d.Tags = len sampleClient.Tags ∧
        (d.Tags = none ↔ sampleClient.Tags = none)) ∧
      (elems m1.strs d.Upstreams = some ["tls://dns.example"] ∧
        len d.Upstreams = len sampleClient.Upstreams ∧
        (d.Upstreams = none ↔ sampleClient.Upstreams = none)) ∧
      (m1.filtering, d.BlockedServices) =
        sampleBsClone sampleMem.filtering sampleClient.BlockedServices ∧
      d.upstreamConfig = sampleClient.upstreamConfig ∧
      d.safeSearchConf = sampleClient.safeSearchConf ∧
      d.SafeSearch = sampleClient.SafeSearch ∧
      m1.loadClient (some 0) = some sampleClient ∧
      elems m1.strs sampleClient.IDs = some ["10.0.0.7", "aa:bb:cc:dd:ee:02"] ∧
      elems m1.strs sampleClient.Tags = some [] ∧
      elems m1.strs sampleClient.Upstreams = some ["tls://dns.example"] ∧
      (∀ x ∈ [d.IDs, d.Tags, d.Upstreams], ∀ t, x = some t →
        sampleMem.strs[t.arr]? = none) ∧
      (∀ x ∈ [d.IDs, d.Tags, d.Upstreams],
        ∀ y ∈ [sampleClient.IDs, sampleClient.Tags, sampleClient.Upstreams],
        writesKeep m1.strs x y ∧ writesKeep m1.strs y x) :=
  Client_ShallowClone_copy sampleBsClone sampleMem 0 sampleClient
    ["10.0.0.7", "aa:bb:cc:dd:ee:02"] [] ["tls://dns.example"] rfl rfl rfl rfl

/-- C10: `Client.setSafeSearch` is atomic on failure.  For a client `c` at
address `a`: if `safesearch.NewDefault` returns an error `e`, then
`setSafeSearch` returns that same error `e` and leaves every client object,
`c` with its field SafeSearch included, and every string slice as it was; if
it returns no error, then `setSafeSearch` returns nil, the client at `a` is
`c` with SafeSearch set to the new filter and every other field as before,
and the other client objects and the string slices are unchanged. -/
theorem Client_setSafeSearch_atomic {Conf F : Type}
    (NewDefault : F → Conf → String → Nat → Int → F × Ptr × Option GoError)
    (quote : String → String) (m : Mem Conf F) (a : Nat) (c : Client Conf)
    (conf : Conf) (cacheSize : Nat) (cacheTTL : Int)
    (hc : m.clients[a]? = some c) :
    (∀ e, (NewDefault m.filtering conf ("client " ++ quote c.Name) cacheSize cacheTTL).2.2
          = some e →
      ∃ m1, Client.setSafeSearch NewDefault quote m (some a) conf cacheSize cacheTTL
          = some (m1, some e) ∧
        m1.clients = m.clients ∧ m1.strs = m.strs ∧ m1.loadClient (some a) = some c) ∧
    ((NewDefault m.filtering conf ("client " ++ quote c.Name) cacheSize cacheTTL).2.2
          = none →
      ∃ m1, Client.setSafeSearch NewDefault quote m (some a) conf cacheSize cacheTTL
          = some (m1, none) ∧
        m1.loadClient (some a) = some { c with SafeSearch :=
          (NewDefault m.filtering conf ("client " ++ quote c.Name) cacheSize cacheTTL).2.1 } ∧
        m1.strs = m.strs ∧ m1.clients.length = m.clients.length ∧
        ∀ b, b ≠ a → m1.clients[b]? = m.clients[b]?) := by
  have halt : a < m.clients.length := by
    by_contra hn
    rw [List.getElem?_eq_none (Nat.le_of_not_lt hn)] at hc
    simp at hc
  constructor
  · intro e he
    refine ⟨{ m with filtering :=
      (NewDefault m.filtering conf ("client " ++ quote c.Name) cacheSize cacheTTL).1 },
      ?_, rfl, rfl, hc⟩
    simp only [Client.setSafeSearch, Mem.loadClient, hc, he]
  · intro he
    refine ⟨{ m with
      clients := m.clients.set a { c with SafeSearch :=
        (NewDefault m.filtering conf ("client " ++ quote c.Name) cacheSize cacheTTL).2.1 },
      filtering :=
        (NewDefault m.filtering conf ("client " ++ quote c.Name) cacheSize cacheTTL).1 },
      ?_, ?_, rfl, ?_, ?_⟩
    · simp only [Client.setSafeSearch, Mem.loadClient, hc, he]
    · simp only [Mem.loadClient]
      rw [List.getElem?_set_self halt]
    · simp
    · intro b hb
      exact List.getElem?_set_ne (Ne.symm hb)

/-- Witness of C10 on the sample store, once with a cache size of 0, for
which the sample `NewDefault` returns an error, and once with a cache size of
8, for which it returns the filter 4. -/
theorem Client_setSafeSearch_atomic_witness :
    (∃ m1, Client.setSafeSearch sampleNewDefault sampleQuote sampleMem (some 0) true 0 60
          = some (m1, some { msg := "no cache for client \"laptop\"" }) ∧
        m1.clients = sampleMem.clients ∧ m1.strs = sampleMem.strs ∧
        m1.loadClient (some 0) = some sampleClient) ∧
    (∃ m1, Client.setSafeSearch sampleNewDefault sampleQuote sampleMem (some 0) true 8 60
          = some (m1, none) ∧
        m1.loadClient (some 0) = some { sampleClient with SafeSearch := some 4 } ∧
        m1.strs = sampleMem.strs ∧ m1.clients.length = sampleMem.clients.length ∧
        ∀ b, b ≠ 0 → m1.clients[b]? = sampleMem.clients[b]?) :=
  ⟨(Client_setSafeSearch_atomic sampleNewDefault sampleQuote sampleMem 0 sampleClient
      true 0 60 rfl).1 _ (by decide),
   (Client_setSafeSearch_atomic sampleNewDefault sampleQuote sampleMem 0 sampleClient
      true 8 60 rfl).2 (by decide)⟩

end home
